import Mathlib

/-!
Verification of the Invidious media-query provider
(src/provider/invidious.js): the playlist pagination and
deduplication loop, the HTTP status-code taxonomy of ivRequest, the
item-to-descriptor mapping videoToMedia, and the cache-first single
item lookup.

The JavaScript is embedded shallowly:

* RawItem, Page, Thumbnail, Media mirror the untyped payload shapes
  the source reads and writes; lengthSeconds is an Option Nat because
  the duration field may be absent and JavaScript treats both a
  missing field and 0 as falsy.
* The accumulator object resultsMap is an insertion-ordered
  association list of RawItem keyed by videoId: assigning an existing
  key overwrites the stored value in place, assigning a new key
  appends, exactly the key-order semantics of a string-keyed object.
* The unbounded while loop of lookupPlaylist is given an explicit
  fuel parameter; paginate returns none when fuel runs out, so a run
  that returns some r for some fuel is a run of the source that
  terminates with outcome r, and an input on which every fuel yields
  none is an input on which the source loops forever.
* Network responses are supplied by a function from page numbers to
  pages; the second component of a run result is the number of the
  last page fetched (pages are fetched sequentially starting at 1).
-/

deriving instance DecidableEq for Except

def PLAYLIST_ITEM_LIMIT : Nat := 2000

/-- One entry of the videoThumbnails array of a raw item. -/
structure Thumbnail where
  width : Nat
  url : String
  deriving Repr, DecidableEq

/-- A raw playlist or video item as delivered by the upstream API. -/
structure RawItem where
  videoId : String
  title : String
  lengthSeconds : Option Nat
  videoThumbnails : List Thumbnail
  error : Option String
  deriving Repr, DecidableEq

/-- The descriptor produced by videoToMedia (the Media object of the
source, with its meta.thumbnail field flattened). -/
structure Media where
  id : String
  mediaType : String
  title : String
  duration : Option Nat
  thumbnail : String
  deriving Repr, DecidableEq

/-- The error taxonomy of the provider: every throw site of the
source is mapped to one constructor. -/
inductive IvError where
  | NotConfigured
  | RateLimited (origin : String)
  | NotFound
  | Forbidden
  | UpstreamError (statusCode : Nat)
  | MalformedResponse
  | PlaylistTooLong
  | InvalidItem (msg : String)
  deriving Repr, DecidableEq

/-- One page of a playlist response: the declared total count
(videoCount) and the items of this page (videos). -/
structure Page where
  videoCount : Nat
  videos : List RawItem
  deriving Repr, DecidableEq

/-- The envelope returned by the transport collaborator request. -/
structure HttpResponse where
  statusCode : Nat
  data : String
  deriving Repr, DecidableEq

/-- ivRequest of the source: dispatch on the transport status code
(429, 404, 500, other non-200) and only on 200 attempt to parse the
body; a parse failure is MalformedResponse. -/
def ivRequest {A : Type} (origin : String) (parse : String → Option A)
    (res : HttpResponse) : Except IvError A :=
  if res.statusCode = 429 then .error (.RateLimited origin)
  else if res.statusCode = 404 then .error .NotFound
  else if res.statusCode = 500 then .error .Forbidden
  else if res.statusCode ≠ 200 then .error (.UpstreamError res.statusCode)
  else
    match parse res.data with
    | some v => .ok v
    | none => .error .MalformedResponse

/-- The thumbnail-selection loop of videoToMedia: forEach over the
array keeping the index of the first thumbnail of maximal width. -/
def bestThumbIdx (thumbs : List Thumbnail) : Nat :=
  (thumbs.enum.foldl
    (fun p it => if it.2.width > p.1 then (it.2.width, it.1) else p)
    (0, 0)).2

/-- The successful branch of videoToMedia: the Media object built
from a raw item, with the maximal-width thumbnail when the item has
thumbnail variants and the constructed default URL otherwise. -/
def mediaOfItem (v : RawItem) : Media :=
  { id := v.videoId
    mediaType := "invidious"
    title := v.title
    duration := v.lengthSeconds
    thumbnail :=
      if v.videoThumbnails.length ≠ 0 then
        (v.videoThumbnails.getD (bestThumbIdx v.videoThumbnails) ⟨0, ""⟩).url
      else
        "https://img.youtube.com/vi/" ++ v.videoId ++ "/0.jpg" }

/-- videoToMedia of the source: throws when the item carries an
upstream error field, otherwise builds the Media descriptor. -/
def videoToMedia (v : RawItem) : Except IvError Media :=
  match v.error with
  | some e => .error (.InvalidItem ("Video contains error: " ++ e))
  | none => .ok (mediaOfItem v)

/-- The map over Object.keys at the end of lookupPlaylist: apply
videoToMedia to each accumulated item in order, propagating the first
thrown error. -/
def mapToMedia : List RawItem → Except IvError (List Media)
  | [] => .ok []
  | v :: vs =>
    match videoToMedia v with
    | .error e => .error e
    | .ok m =>
      match mapToMedia vs with
      | .error e => .error e
      | .ok ms => .ok (m :: ms)

/-- One assignment resultsMap[video.videoId] = video: overwrite in
place when the key is present, append when it is new. -/
def insertItem (acc : List RawItem) (v : RawItem) : List RawItem :=
  if acc.any (fun w => w.videoId == v.videoId) then
    acc.map (fun w => if w.videoId == v.videoId then v else w)
  else
    acc ++ [v]

/-- res.videos.forEach(video => resultsMap[video.videoId] = video). -/
def mergePage (acc : List RawItem) (vids : List RawItem) : List RawItem :=
  vids.foldl insertItem acc

/-- Object.keys(resultsMap): the key list of the accumulator. -/
def accKeys (acc : List RawItem) : List String :=
  acc.map (fun w => w.videoId)

/-- The truthiness test resultsMap[key].lengthSeconds of the final
filter: the duration field is present and non-zero. -/
def durOk (v : RawItem) : Bool :=
  v.lengthSeconds.getD 0 != 0

/-- The guard of the while loop:
res.videos.length and resultsLength < PLAYLIST_ITEM_LIMIT and
resultsLength != res.videoCount, where resultsLength is the key count
of the accumulator. -/
def loopCond (res : Page) (acc : List RawItem) : Bool :=
  res.videos.length != 0 &&
    decide (acc.length < PLAYLIST_ITEM_LIMIT) &&
    acc.length != res.videoCount

/-- The while loop of lookupPlaylist with explicit fuel: res is the
most recently fetched page, page its number, acc the accumulator.
Each iteration fetches page+1, merges it, and re-tests the guard;
none means the fuel was exhausted with the guard still true. The
result carries the final accumulator and the last fetched page
number. -/
def paginate (fetch : Nat → Page) : Nat → Nat → Page → List RawItem →
    Option (List RawItem × Nat)
  | 0, page, res, acc =>
    if loopCond res acc then none else some (acc, page)
  | fuel + 1, page, res, acc =>
    if loopCond res acc then
      let nres := fetch (page + 1)
      paginate fetch fuel (page + 1) nres (mergePage acc nres.videos)
    else some (acc, page)

/-- The accumulator produced by a lookupPlaylist run: fetch page 1,
reject a declared count above the limit, merge page 1 and run the
loop. none when the early length check rejects (no loop runs) or the
fuel runs out. -/
def playlistAccum (fetch : Nat → Page) (fuel : Nat) :
    Option (List RawItem × Nat) :=
  let res := fetch 1
  if res.videoCount > PLAYLIST_ITEM_LIMIT then none
  else paginate fetch fuel 1 res (mergePage [] res.videos)

/-- lookupPlaylist of the source over an upstream fetch function:
fetch page 1, fail with PlaylistTooLong when the declared count
exceeds the limit, run the pagination loop, fail with PlaylistTooLong
when the final accumulator has reached the limit, and otherwise map
the duration-filtered accumulator to Media descriptors. The second
component is the number of the last page fetched; none means the
source would still be looping after fuel iterations. -/
def lookupPlaylistRun (fetch : Nat → Page) (fuel : Nat) :
    Option (Except IvError (List Media) × Nat) :=
  let res := fetch 1
  if res.videoCount > PLAYLIST_ITEM_LIMIT then
    some (.error .PlaylistTooLong, 1)
  else
    match paginate fetch fuel 1 res (mergePage [] res.videos) with
    | none => none
    | some (acc, n) =>
      if acc.length ≥ PLAYLIST_ITEM_LIMIT then
        some (.error .PlaylistTooLong, n)
      else
        some (mapToMedia (acc.filter durOk), n)

/-- A concrete upstream playlist: a fixed declared count and a finite
list of pages; pages beyond the list are empty, as a real paged API
answers past the end of a collection. -/
def fetchOfPages (vc : Nat) (pages : List (List RawItem)) : Nat → Page :=
  fun n => { videoCount := vc, videos := pages.getD (n - 1) [] }

/-- The number of distinct item ids across all pages of a playlist. -/
def distinctIdCount (pages : List (List RawItem)) : Nat :=
  ((pages.flatten).map (fun v => v.videoId)).dedup.length

/-- The external cache collaborator: get may fail or miss, put may
fail; both failures are swallowed by the caller. -/
structure Cache where
  get : String → Except String (Option Media)
  put : Media → Except String Unit

/-- The internal single-item lookup: return the cached descriptor
when one was found (no configuration check, no network), otherwise
reject when no instance is configured, otherwise use the network.
The Bool records whether a network request was issued. -/
def lookupInternal (inst : Option String) (net : Except IvError Media)
    (cached : Option Media) : Except IvError Media × Bool :=
  match cached with
  | some m => (.ok m, false)
  | none =>
    match inst with
    | none => (.error .NotConfigured, false)
    | some _ => (net, true)

/-- lookup of the source: consult the cache (read errors swallowed),
delegate to the internal lookup, and on success attempt a best-effort
cache write-back. Returns the outcome, whether the network was used,
and the list of descriptors whose write-back was attempted. -/
def lookupRun (inst : Option String) (cache : Option Cache)
    (net : Except IvError Media) (id : String) :
    Except IvError Media × Bool × List Media :=
  let cached : Option Media :=
    match cache with
    | none => none
    | some c =>
      match c.get id with
      | .ok v => v
      | .error _ => none
  match lookupInternal inst net cached with
  | (.error e, used) => (.error e, used, [])
  | (.ok m, used) =>
    match cache with
    | none => (.ok m, used, [])
    | some _ => (.ok m, used, [m])

/-! ## Concrete upstreams used by counterexamples and witnesses -/

def itemOf (id : String) (dur : Option Nat) (err : Option String) : RawItem :=
  { videoId := id, title := "t", lengthSeconds := dur,
    videoThumbnails := [], error := err }

def itemA : RawItem := itemOf "a" (some 10) none

def itemB : RawItem := itemOf "b" (some 20) none

def itemB2 : RawItem := { itemB with title := "t2" }

def itemC : RawItem := itemOf "c" (some 30) none

def itemNoDur : RawItem := itemOf "d" none none

def itemErr : RawItem := itemOf "e" (some 5) (some "boom")

/-- Pathological upstream of claim C1: every page is the same
non-empty item list, the declared count is 2 but the list holds one
distinct id. -/
def constFetch2 : Nat → Page := fun _ => { videoCount := 2, videos := [itemA] }

/-- The same repeated page with the declared count equal to its
distinct id count. -/
def constFetch1 : Nat → Page := fun _ => { videoCount := 1, videos := [itemA] }

/-- k pairwise distinct item ids. -/
def aId (i : Nat) : String := String.mk (List.replicate i 'a')

def mkVid (i : Nat) : RawItem := itemOf (aId i) (some 1) none

def bigVids (k : Nat) : List RawItem := (List.range k).map mkVid

def smallPages : List (List RawItem) := [[itemA], [itemB]]

def bigCountFetch : Nat → Page := fun _ => { videoCount := 5000, videos := [] }

def dupFetch : Nat → Page :=
  fetchOfPages 3 [[itemA, itemB], [itemB2, itemC]]

def noDurFetch : Nat → Page := fetchOfPages 2 [[itemA, itemNoDur]]

def mediaX : Media := mediaOfItem itemA

def cacheX : Cache :=
  { get := fun _ => .ok (some mediaX), put := fun _ => .ok () }

/-! ## Basic accumulator lemmas -/

theorem mergePage_nil (acc : List RawItem) : mergePage acc [] = acc := rfl

theorem mergePage_cons (acc : List RawItem) (v : RawItem) (vs : List RawItem) :
    mergePage acc (v :: vs) = mergePage (insertItem acc v) vs := rfl

theorem accKeys_nil : accKeys [] = [] := rfl

theorem accKeys_cons (v : RawItem) (acc : List RawItem) :
    accKeys (v :: acc) = v.videoId :: accKeys acc := rfl

theorem accKeys_append (a b : List RawItem) :
    accKeys (a ++ b) = accKeys a ++ accKeys b := by
  simp [accKeys]

theorem mem_accKeys {acc : List RawItem} {k : String} :
    k ∈ accKeys acc ↔ ∃ w ∈ acc, w.videoId = k := by
  simp [accKeys]

theorem accKeys_map_overwrite (acc : List RawItem) (v : RawItem) :
    accKeys (acc.map (fun w => if w.videoId == v.videoId then v else w)) =
      accKeys acc := by
  induction acc with
  | nil => rfl
  | cons w ws ih =>
    by_cases hw : w.videoId == v.videoId
    · have hv : v.videoId = w.videoId := (beq_iff_eq.mp hw).symm
      simp only [List.map_cons, accKeys_cons, if_pos hw]
      rw [ih, hv]
    · simp only [List.map_cons, accKeys_cons, if_neg hw]
      rw [ih]

theorem any_key_iff {acc : List RawItem} {v : RawItem} :
    acc.any (fun w => w.videoId == v.videoId) = true ↔
      v.videoId ∈ accKeys acc := by
  rw [List.any_eq_true, mem_accKeys]
  constructor
  · rintro ⟨w, hw, he⟩
    exact ⟨w, hw, beq_iff_eq.mp he⟩
  · rintro ⟨w, hw, he⟩
    exact ⟨w, hw, beq_iff_eq.mpr he⟩

theorem insertItem_new_key (acc : List RawItem) (v : RawItem)
    (h : v.videoId ∉ accKeys acc) : insertItem acc v = acc ++ [v] := by
  unfold insertItem
  rw [if_neg]
  intro hc
  exact h (any_key_iff.mp hc)

theorem accKeys_insertItem_pos (acc : List RawItem) (v : RawItem)
    (h : acc.any (fun w => w.videoId == v.videoId) = true) :
    accKeys (insertItem acc v) = accKeys acc := by
  unfold insertItem
  rw [if_pos h, accKeys_map_overwrite]

theorem accKeys_nodup_insertItem {acc : List RawItem} (v : RawItem)
    (h : (accKeys acc).Nodup) : (accKeys (insertItem acc v)).Nodup := by
  unfold insertItem
  by_cases ha : acc.any (fun w => w.videoId == v.videoId) = true
  · rw [if_pos ha, accKeys_map_overwrite]
    exact h
  · rw [if_neg ha, accKeys_append]
    refine List.Nodup.append h (List.nodup_singleton _) ?_
    intro a haa hav
    rcases List.mem_singleton.mp hav with rfl
    exact ha (any_key_iff.mpr haa)

theorem accKeys_subset_insertItem (acc : List RawItem) (v : RawItem) :
    accKeys acc ⊆ accKeys (insertItem acc v) := by
  unfold insertItem
  by_cases ha : acc.any (fun w => w.videoId == v.videoId) = true
  · rw [if_pos ha, accKeys_map_overwrite]
    exact fun a h => h
  · rw [if_neg ha, accKeys_append]
    exact List.subset_append_left _ _

theorem videoId_mem_insertItem (acc : List RawItem) (v : RawItem) :
    v.videoId ∈ accKeys (insertItem acc v) := by
  unfold insertItem
  by_cases ha : acc.any (fun w => w.videoId == v.videoId) = true
  · rw [if_pos ha, accKeys_map_overwrite]
    exact any_key_iff.mp ha
  · rw [if_neg ha, accKeys_append]
    simp [accKeys]

theorem mem_insertItem {acc : List RawItem} {v w : RawItem}
    (h : w ∈ insertItem acc v) : w ∈ acc ∨ w = v := by
  unfold insertItem at h
  by_cases ha : acc.any (fun u => u.videoId == v.videoId) = true
  · rw [if_pos ha] at h
    rcases List.mem_map.mp h with ⟨u, hu, he⟩
    by_cases h2 : u.videoId == v.videoId
    · right
      rw [← he, if_pos h2]
    · left
      rw [← he, if_neg h2]
      exact hu
  · rw [if_neg ha] at h
    rcases List.mem_append.mp h with h1 | h1
    · exact Or.inl h1
    · exact Or.inr (List.mem_singleton.mp h1)

theorem accKeys_subset_mergePage (vids : List RawItem) (acc : List RawItem) :
    accKeys acc ⊆ accKeys (mergePage acc vids) := by
  induction vids generalizing acc with
  | nil => exact fun a h => h
  | cons v vs ih =>
    rw [mergePage_cons]
    exact (accKeys_subset_insertItem acc v).trans (ih _)

theorem videoId_mem_mergePage {vids : List RawItem} (acc : List RawItem)
    {v : RawItem} (h : v ∈ vids) :
    v.videoId ∈ accKeys (mergePage acc vids) := by
  induction vids generalizing acc with
  | nil => exact absurd h (List.not_mem_nil _)
  | cons u us ih =>
    rw [mergePage_cons]
    rcases List.mem_cons.mp h with rfl | h2
    · exact accKeys_subset_mergePage _ _ (videoId_mem_insertItem acc v)
    · exact ih _ h2

theorem accKeys_nodup_mergePage (vids : List RawItem) {acc : List RawItem}
    (h : (accKeys acc).Nodup) : (accKeys (mergePage acc vids)).Nodup := by
  induction vids generalizing acc with
  | nil => exact h
  | cons v vs ih =>
    rw [mergePage_cons]
    exact ih (accKeys_nodup_insertItem v h)

theorem mem_mergePage {vids : List RawItem} {acc : List RawItem} {w : RawItem}
    (h : w ∈ mergePage acc vids) : w ∈ acc ∨ w ∈ vids := by
  induction vids generalizing acc with
  | nil => exact Or.inl h
  | cons v vs ih =>
    rw [mergePage_cons] at h
    rcases ih h with h1 | h1
    · rcases mem_insertItem h1 with h2 | h2
      · exact Or.inl h2
      · exact Or.inr (by simp [h2])
    · exact Or.inr (by simp [h1])

theorem mergePage_length_disjoint (vids : List RawItem) (acc : List RawItem)
    (hn : (vids.map (fun v => v.videoId)).Nodup)
    (hd : ∀ v ∈ vids, v.videoId ∉ accKeys acc) :
    (mergePage acc vids).length = acc.length + vids.length := by
  induction vids generalizing acc with
  | nil => simp [mergePage]
  | cons v vs ih =>
    rw [mergePage_cons, insertItem_new_key acc v (hd v (by simp))]
    rw [List.map_cons, List.nodup_cons] at hn
    have h2 : ∀ u ∈ vs, u.videoId ∉ accKeys (acc ++ [v]) := by
      intro u hu
      rw [accKeys_append]
      simp only [List.mem_append]
      rintro (hc | hc)
      · exact hd u (by simp [hu]) hc
      · have huv : u.videoId = v.videoId := by
          simpa [accKeys] using hc
        exact hn.1 (huv ▸ List.mem_map_of_mem _ hu)
    rw [ih (acc ++ [v]) hn.2 h2]
    simp only [List.length_append, List.length_cons, List.length_nil]
    omega

theorem countP_key_eq_zero {acc : List RawItem} {k : String}
    (h : k ∉ accKeys acc) :
    acc.countP (fun w => w.videoId == k) = 0 := by
  rw [List.countP_eq_zero]
  intro u hu
  simp only [beq_iff_eq]
  intro hc
  exact h (mem_accKeys.mpr ⟨u, hu, hc⟩)

theorem countP_key_eq_one {acc : List RawItem} {k : String}
    (hn : (accKeys acc).Nodup) (hm : k ∈ accKeys acc) :
    acc.countP (fun w => w.videoId == k) = 1 := by
  induction acc with
  | nil => exact absurd hm (List.not_mem_nil _)
  | cons w ws ih =>
    rw [accKeys_cons, List.nodup_cons] at hn
    rw [accKeys_cons] at hm
    by_cases hw : w.videoId = k
    · have hk : k ∉ accKeys ws := hw ▸ hn.1
      rw [List.countP_cons, countP_key_eq_zero hk]
      simp [hw]
    · have hm2 : k ∈ accKeys ws := by
        rcases List.mem_cons.mp hm with h | h
        · exact absurd h.symm hw
        · exact h
      rw [List.countP_cons, ih hn.2 hm2]
      simp [hw]

theorem find?_map_overwrite (acc : List RawItem) (v : RawItem)
    (h : acc.any (fun w => w.videoId == v.videoId) = true) :
    (acc.map (fun w => if w.videoId == v.videoId then v else w)).find?
      (fun w => w.videoId == v.videoId) = some v := by
  induction acc with
  | nil => simp at h
  | cons w ws ih =>
    simp only [List.map_cons]
    by_cases hw : (w.videoId == v.videoId) = true
    · rw [if_pos hw]
      exact List.find?_cons_of_pos _ (by simp)
    · rw [if_neg hw]
      have hw2 : (w.videoId == v.videoId) = false := Bool.eq_false_iff.mpr hw
      rw [List.find?_cons, hw2]
      apply ih
      simpa [List.any_cons, hw] using h

theorem find?_append_new (acc : List RawItem) (v : RawItem)
    (h : acc.any (fun w => w.videoId == v.videoId) = false) :
    (acc ++ [v]).find? (fun w => w.videoId == v.videoId) = some v := by
  induction acc with
  | nil =>
    simp only [List.nil_append]
    exact List.find?_cons_of_pos _ (by simp)
  | cons w ws ih =>
    simp only [List.any_cons, Bool.or_eq_false_iff] at h
    rw [List.cons_append, List.find?_cons, h.1]
    exact ih h.2

theorem find?_insertItem (acc : List RawItem) (v : RawItem) :
    (insertItem acc v).find? (fun w => w.videoId == v.videoId) = some v := by
  unfold insertItem
  by_cases ha : acc.any (fun w => w.videoId == v.videoId) = true
  · rw [if_pos ha]
    exact find?_map_overwrite acc v ha
  · rw [if_neg ha]
    exact find?_append_new acc v (Bool.eq_false_iff.mpr ha)

/-! ## Mapping lemmas -/

theorem mapToMedia_ok (l : List RawItem) (h : ∀ v ∈ l, v.error = none) :
    mapToMedia l = .ok (l.map mediaOfItem) := by
  induction l with
  | nil => rfl
  | cons v vs ih =>
    have hv : v.error = none := h v (by simp)
    have hvs : mapToMedia vs = .ok (vs.map mediaOfItem) :=
      ih (fun u hu => h u (by simp [hu]))
    simp [mapToMedia, videoToMedia, hv, hvs]

theorem mapToMedia_ok_elim {l : List RawItem} {ms : List Media}
    (h : mapToMedia l = .ok ms) : ms = l.map mediaOfItem := by
  induction l generalizing ms with
  | nil =>
    simp only [mapToMedia] at h
    cases h
    rfl
  | cons v vs ih =>
    simp only [mapToMedia] at h
    cases hv : videoToMedia v with
    | error e => rw [hv] at h; cases h
    | ok m =>
      rw [hv] at h
      cases hvs : mapToMedia vs with
      | error e => rw [hvs] at h; cases h
      | ok ms2 =>
        rw [hvs] at h
        cases h
        have hm : m = mediaOfItem v := by
          unfold videoToMedia at hv
          cases he : v.error with
          | some e => rw [he] at hv; cases hv
          | none => rw [he] at hv; cases hv; rfl
        rw [List.map_cons, ← ih hvs, hm]

/-! ## Loop lemmas -/

theorem loopCond_false_of_limit {res : Page} {acc : List RawItem}
    (h : PLAYLIST_ITEM_LIMIT ≤ acc.length) : loopCond res acc = false := by
  unfold loopCond
  rw [decide_eq_false (Nat.not_lt.mpr h)]
  simp

theorem loopCond_false_of_empty {res : Page} {acc : List RawItem}
    (h : res.videos = []) : loopCond res acc = false := by
  unfold loopCond
  rw [h]
  simp

theorem loopCond_false_of_count {res : Page} {acc : List RawItem}
    (h : acc.length = res.videoCount) : loopCond res acc = false := by
  unfold loopCond
  rw [h]
  simp

theorem loopCond_true_elim {res : Page} {acc : List RawItem}
    (h : loopCond res acc = true) :
    res.videos ≠ [] ∧ acc.length < PLAYLIST_ITEM_LIMIT ∧
      acc.length ≠ res.videoCount := by
  unfold loopCond at h
  simp only [Bool.and_eq_true, bne_iff_ne, ne_eq, decide_eq_true_eq] at h
  refine ⟨fun hc => ?_, h.1.2, h.2⟩
  rw [hc] at h
  simp at h

theorem paginate_stop {fetch : Nat → Page} {res : Page} {acc : List RawItem}
    (h : loopCond res acc = false) (fuel page : Nat) :
    paginate fetch fuel page res acc = some (acc, page) := by
  cases fuel <;> simp [paginate, h]

theorem paginate_step {fetch : Nat → Page} {res : Page} {acc : List RawItem}
    (h : loopCond res acc = true) (fuel page : Nat) :
    paginate fetch (fuel + 1) page res acc =
      paginate fetch fuel (page + 1) (fetch (page + 1))
        (mergePage acc (fetch (page + 1)).videos) := by
  simp [paginate, h]

theorem paginate_zero_none {fetch : Nat → Page} {res : Page}
    {acc : List RawItem} (h : loopCond res acc = true) :
    paginate fetch 0 page res acc = none := by
  simp [paginate, h]

theorem playlistAccum_elim {fetch : Nat → Page} {fuel : Nat}
    {acc : List RawItem} {n : Nat}
    (h : playlistAccum fetch fuel = some (acc, n)) :
    ¬ (fetch 1).videoCount > PLAYLIST_ITEM_LIMIT ∧
      paginate fetch fuel 1 (fetch 1) (mergePage [] (fetch 1).videos) =
        some (acc, n) := by
  unfold playlistAccum at h
  by_cases hvc : (fetch 1).videoCount > PLAYLIST_ITEM_LIMIT
  · rw [if_pos hvc] at h
    cases h
  · rw [if_neg hvc] at h
    exact ⟨hvc, h⟩

theorem playlistAccum_intro {fetch : Nat → Page} {fuel : Nat}
    {acc : List RawItem} {n : Nat}
    (hvc : ¬ (fetch 1).videoCount > PLAYLIST_ITEM_LIMIT)
    (h : paginate fetch fuel 1 (fetch 1) (mergePage [] (fetch 1).videos) =
      some (acc, n)) :
    playlistAccum fetch fuel = some (acc, n) := by
  unfold playlistAccum
  rw [if_neg hvc]
  exact h

theorem run_of_accum {fetch : Nat → Page} {fuel : Nat} {acc : List RawItem}
    {n : Nat} (h : playlistAccum fetch fuel = some (acc, n)) :
    lookupPlaylistRun fetch fuel =
      some (if acc.length ≥ PLAYLIST_ITEM_LIMIT then .error .PlaylistTooLong
            else mapToMedia (acc.filter durOk), n) := by
  rcases playlistAccum_elim h with ⟨hvc, hp⟩
  unfold lookupPlaylistRun
  rw [if_neg hvc, hp]
  by_cases hl : acc.length ≥ PLAYLIST_ITEM_LIMIT <;> simp [hl]

/-! ## Loop invariants and termination -/

theorem paginate_inv {P : RawItem → Prop} (fetch : Nat → Page)
    (hP : ∀ i v, v ∈ (fetch i).videos → P v) :
    ∀ fuel page acc accF nF,
      paginate fetch fuel page (fetch page) acc = some (accF, nF) →
      (accKeys acc).Nodup → (∀ w ∈ acc, P w) →
      (∀ i v, 1 ≤ i → i ≤ page → v ∈ (fetch i).videos →
        v.videoId ∈ accKeys acc) →
      page ≤ nF ∧ (accKeys accF).Nodup ∧ (∀ w ∈ accF, P w) ∧
        (∀ i v, 1 ≤ i → i ≤ nF → v ∈ (fetch i).videos →
          v.videoId ∈ accKeys accF) := by
  intro fuel
  induction fuel with
  | zero =>
    intro page acc accF nF hp hn hPacc hcov
    by_cases hc : loopCond (fetch page) acc = true
    · rw [paginate_zero_none hc] at hp
      cases hp
    · have hc2 : loopCond (fetch page) acc = false := by simpa using hc
      rw [paginate_stop hc2] at hp
      cases hp
      exact ⟨le_refl _, hn, hPacc, hcov⟩
  | succ fuel ih =>
    intro page acc accF nF hp hn hPacc hcov
    by_cases hc : loopCond (fetch page) acc = true
    · rw [paginate_step hc] at hp
      have hn2 : (accKeys (mergePage acc (fetch (page + 1)).videos)).Nodup :=
        accKeys_nodup_mergePage _ hn
      have hP2 : ∀ w ∈ mergePage acc (fetch (page + 1)).videos, P w := by
        intro w hw
        rcases mem_mergePage hw with h1 | h1
        · exact hPacc w h1
        · exact hP (page + 1) w h1
      have hcov2 : ∀ i v, 1 ≤ i → i ≤ page + 1 → v ∈ (fetch i).videos →
          v.videoId ∈ accKeys (mergePage acc (fetch (page + 1)).videos) := by
        intro i v h1 h2 hv
        rcases eq_or_lt_of_le h2 with rfl | hlt
        · exact videoId_mem_mergePage acc hv
        · exact accKeys_subset_mergePage _ _
            (hcov i v h1 (Nat.lt_succ_iff.mp hlt) hv)
      have hrec := ih (page + 1) _ accF nF hp hn2 hP2 hcov2
      exact ⟨Nat.le_of_succ_le hrec.1, hrec.2⟩
    · have hc2 : loopCond (fetch page) acc = false := by simpa using hc
      rw [paginate_stop hc2] at hp
      cases hp
      exact ⟨le_refl _, hn, hPacc, hcov⟩

theorem paginate_total_of_pages (vc : Nat) (pages : List (List RawItem)) :
    ∀ fuel page acc, pages.length < fuel + page →
      ∃ accF nF,
        paginate (fetchOfPages vc pages) fuel page
          (fetchOfPages vc pages page) acc = some (accF, nF) := by
  intro fuel
  induction fuel with
  | zero =>
    intro page acc hlen
    have hv : (fetchOfPages vc pages page).videos = [] := by
      simp only [fetchOfPages]
      exact List.getD_eq_default _ _ (by omega)
    rw [paginate_stop (loopCond_false_of_empty hv)]
    exact ⟨acc, page, rfl⟩
  | succ fuel ih =>
    intro page acc hlen
    by_cases hc : loopCond (fetchOfPages vc pages page) acc = true
    · rw [paginate_step hc]
      exact ih (page + 1) _ (by omega)
    · have hc2 : loopCond (fetchOfPages vc pages page) acc = false := by
        simpa using hc
      rw [paginate_stop hc2]
      exact ⟨acc, page, rfl⟩

theorem paginate_total_of_empty (fetch : Nat → Page) (m : Nat)
    (hm : (fetch m).videos = []) :
    ∀ fuel page acc, page ≤ m → m ≤ fuel + page →
      ∃ accF nF,
        paginate fetch fuel page (fetch page) acc = some (accF, nF) ∧
          nF ≤ m := by
  intro fuel
  induction fuel with
  | zero =>
    intro page acc h1 h2
    have hpm : page = m := le_antisymm h1 (by omega)
    rw [paginate_stop (loopCond_false_of_empty (hpm ▸ hm))]
    exact ⟨acc, page, rfl, le_of_eq hpm⟩
  | succ fuel ih =>
    intro page acc h1 h2
    by_cases hc : loopCond (fetch page) acc = true
    · have hne := (loopCond_true_elim hc).1
      have hpm : page ≠ m := fun he => hne (he ▸ hm)
      rw [paginate_step hc]
      exact ih (page + 1) _ (by omega) (by omega)
    · have hc2 : loopCond (fetch page) acc = false := by simpa using hc
      rw [paginate_stop hc2]
      exact ⟨acc, page, rfl, h1⟩

theorem mem_fetchOfPages {vc : Nat} {pages : List (List RawItem)} {i : Nat}
    {v : RawItem} (h : v ∈ (fetchOfPages vc pages i).videos) :
    v ∈ pages.flatten := by
  simp only [fetchOfPages] at h
  rcases Nat.lt_or_ge (i - 1) pages.length with hl | hl
  · rw [List.getD_eq_getElem _ _ hl] at h
    exact List.mem_flatten.mpr ⟨_, List.getElem_mem hl, h⟩
  · rw [List.getD_eq_default _ _ hl] at h
    cases h

theorem aId_inj : Function.Injective aId := by
  intro i j h
  have h2 := congrArg (fun s => s.data.length) h
  simpa [aId] using h2

theorem bigVids_keys_nodup (k : Nat) :
    ((bigVids k).map (fun v => v.videoId)).Nodup := by
  unfold bigVids
  rw [List.map_map]
  have he : (fun v : RawItem => v.videoId) ∘ mkVid = aId := rfl
  rw [he]
  exact (List.nodup_range k).map aId_inj

theorem bigVids_length (k : Nat) : (bigVids k).length = k := by
  simp [bigVids]

theorem mergePage_nil_bigVids (k : Nat) :
    (mergePage [] (bigVids k)).length = k := by
  rw [mergePage_length_disjoint _ _ (bigVids_keys_nodup k)
    (by intro v hv; simp [accKeys])]
  simp [bigVids_length]

theorem distinctIdCount_bigVids (k : Nat) :
    distinctIdCount [bigVids k] = k := by
  unfold distinctIdCount
  simp only [List.flatten_cons, List.flatten_nil, List.append_nil]
  rw [List.dedup_eq_self.mpr (bigVids_keys_nodup k)]
  simp [bigVids]

theorem bigAccum (vc k fuel : Nat) (hvc : ¬ vc > PLAYLIST_ITEM_LIMIT)
    (hk : PLAYLIST_ITEM_LIMIT ≤ k) :
    playlistAccum (fetchOfPages vc [bigVids k]) fuel =
      some (mergePage [] (bigVids k), 1) := by
  apply playlistAccum_intro
  · exact hvc
  · apply paginate_stop
    apply loopCond_false_of_limit
    show PLAYLIST_ITEM_LIMIT ≤ (mergePage [] (bigVids k)).length
    rw [mergePage_nil_bigVids k]
    exact hk

theorem constFetch2_loop_none :
    ∀ fuel page,
      paginate constFetch2 fuel page
        { videoCount := 2, videos := [itemA] } [itemA] = none := by
  intro fuel
  induction fuel with
  | zero =>
    intro page
    exact paginate_zero_none (by decide)
  | succ fuel ih =>
    intro page
    rw [paginate_step (by decide)]
    rw [show constFetch2 (page + 1) =
      ({ videoCount := 2, videos := [itemA] } : Page) from rfl]
    rw [show mergePage [itemA]
      ({ videoCount := 2, videos := [itemA] } : Page).videos = [itemA]
      from by decide]
    exact ih (page + 1)

theorem constFetch2_run_none (fuel : Nat) :
    lookupPlaylistRun constFetch2 fuel = none := by
  unfold lookupPlaylistRun
  rw [if_neg (by decide)]
  rw [show constFetch2 1 = ({ videoCount := 2, videos := [itemA] } : Page)
    from rfl]
  rw [show mergePage [] ({ videoCount := 2, videos := [itemA] } : Page).videos
    = [itemA] from by decide]
  rw [constFetch2_loop_none fuel 1]

theorem run_ok_elim {fetch : Nat → Page} {fuel : Nat} {ms : List Media}
    {n : Nat} (h : lookupPlaylistRun fetch fuel = some (.ok ms, n)) :
    ∃ acc, playlistAccum fetch fuel = some (acc, n) ∧
      mapToMedia (acc.filter durOk) = .ok ms := by
  unfold lookupPlaylistRun at h
  by_cases hvc : (fetch 1).videoCount > PLAYLIST_ITEM_LIMIT
  · rw [if_pos hvc] at h
    simp at h
  · rw [if_neg hvc] at h
    cases hp : paginate fetch fuel 1 (fetch 1) (mergePage [] (fetch 1).videos)
      with
    | none =>
      rw [hp] at h
      simp at h
    | some p =>
      rw [hp] at h
      obtain ⟨acc, k⟩ := p
      by_cases hl : acc.length ≥ PLAYLIST_ITEM_LIMIT
      · simp [hl] at h
      · simp only [hl, if_false] at h
        simp only [Option.some.injEq, Prod.mk.injEq] at h
        exact ⟨acc, by rw [← h.2]; exact playlistAccum_intro hvc hp, h.1⟩

/-! ## Claims -/

/-- C1, counterexample: an upstream that answers every page with the
same non-empty single-item list but declares a total count of 2 makes
lookupPlaylist loop forever: no amount of fuel produces a result, so
the claim that every constant-duplicate-page playlist terminates is
false. -/
theorem C1_cex_infinite_loop :
    (∀ k, constFetch2 k = { videoCount := 2, videos := [itemA] }) ∧
      [itemA] ≠ ([] : List RawItem) ∧
      ¬ ∃ fuel r, lookupPlaylistRun constFetch2 fuel = some r := by
  refine ⟨fun k => rfl, by decide, ?_⟩
  rintro ⟨fuel, r, hr⟩
  rw [constFetch2_run_none fuel] at hr
  cases hr

/-- C1 (amended): when every fetched page is the same non-empty item
list and the declared total count equals the number of distinct ids
of that list, lookupPlaylist terminates for every fuel, with page 1
as the only page fetched. -/
theorem C1_const_pages_terminate (fetch : Nat → Page) (vc : Nat)
    (vids : List RawItem)
    (hfetch : ∀ k, 1 ≤ k → fetch k = { videoCount := vc, videos := vids })
    (hne : vids ≠ [])
    (hvc : vc = (mergePage [] vids).length) :
    ∀ fuel, ∃ r, lookupPlaylistRun fetch fuel = some (r, 1) := by
  intro fuel
  have h1 : fetch 1 = { videoCount := vc, videos := vids } :=
    hfetch 1 (le_refl 1)
  unfold lookupPlaylistRun
  rw [h1]
  by_cases hbig : vc > PLAYLIST_ITEM_LIMIT
  · rw [if_pos hbig]
    exact ⟨.error .PlaylistTooLong, rfl⟩
  · rw [if_neg hbig]
    have hstop : loopCond { videoCount := vc, videos := vids }
        (mergePage [] ({ videoCount := vc, videos := vids } : Page).videos) =
          false := by
      apply loopCond_false_of_count
      exact hvc.symm
    rw [paginate_stop hstop]
    by_cases hl : (mergePage [] vids).length ≥ PLAYLIST_ITEM_LIMIT
    · exact ⟨.error .PlaylistTooLong, by simp [hl]⟩
    · exact ⟨mapToMedia ((mergePage [] vids).filter durOk), by simp [hl]⟩

/-- C1 witness: the repeated single-item page with declared count 1
terminates at fuel 5 having fetched only page 1. -/
theorem C1_const_pages_terminate_wit :
    ∃ r, lookupPlaylistRun constFetch1 5 = some (r, 1) :=
  C1_const_pages_terminate constFetch1 1 [itemA] (fun k _ => rfl)
    (by decide) (by decide) 5

/-- C2, counterexample: a page-1 response declaring 2000 items but
carrying 2001 distinct items passes the early count check and is
merged wholesale, so the loop accumulator reaches 2001 entries —
strictly above the ceiling — before the run fails. -/
theorem C2_cex_exceeds_ceiling :
    ¬ (fetchOfPages 2000 [bigVids 2001] 1).videoCount >
        PLAYLIST_ITEM_LIMIT ∧
      ∃ acc k,
        playlistAccum (fetchOfPages 2000 [bigVids 2001]) 0 = some (acc, k) ∧
          PLAYLIST_ITEM_LIMIT < acc.length := by
  refine ⟨by decide, mergePage [] (bigVids 2001), 1,
    bigAccum 2000 2001 0 (by decide) (by decide), ?_⟩
  rw [mergePage_nil_bigVids]
  decide

/-- C2 (amended): the accumulator can transiently exceed the ceiling
by the items of the page just merged; whenever it reaches or exceeds
the ceiling the run fails with PlaylistTooLong and the loop refuses
to take any further step from that accumulator. -/
theorem C2_limit_stops_loop (fetch : Nat → Page) (fuel : Nat)
    (acc : List RawItem) (n : Nat)
    (hacc : playlistAccum fetch fuel = some (acc, n))
    (hlen : PLAYLIST_ITEM_LIMIT ≤ acc.length) :
    lookupPlaylistRun fetch fuel = some (.error .PlaylistTooLong, n) ∧
      ∀ fuel2 page res, paginate fetch fuel2 page res acc =
        some (acc, page) := by
  have h := run_of_accum hacc
  rw [if_pos hlen] at h
  exact ⟨h, fun fuel2 page res =>
    paginate_stop (loopCond_false_of_limit hlen) _ _⟩

/-- C2 witness: at the 2001-item upstream the run fails with
PlaylistTooLong and the loop takes no step from the oversized
accumulator. -/
theorem C2_limit_stops_loop_wit :
    lookupPlaylistRun (fetchOfPages 2000 [bigVids 2001]) 0 =
        some (.error .PlaylistTooLong, 1) ∧
      paginate (fetchOfPages 2000 [bigVids 2001]) 7 9
          { videoCount := 0, videos := [] } (mergePage [] (bigVids 2001)) =
        some (mergePage [] (bigVids 2001), 9) := by
  have h := C2_limit_stops_loop (fetchOfPages 2000 [bigVids 2001]) 0
    (mergePage [] (bigVids 2001)) 1
    (bigAccum 2000 2001 0 (by decide) (by decide))
    (by rw [mergePage_nil_bigVids]; decide)
  exact ⟨h.1, h.2 7 9 _⟩

/-- C3, counterexample: a playlist whose 2000 distinct items equal
its declared count — within the claimed at-most-MAX_ITEMS bound —
is nevertheless rejected with PlaylistTooLong by the post-loop
check, so the claim fails at the boundary. -/
theorem C3_cex_boundary :
    distinctIdCount [bigVids 2000] = 2000 ∧
      (fetchOfPages 2000 [bigVids 2000] 1).videoCount = 2000 ∧
      2000 ≤ PLAYLIST_ITEM_LIMIT ∧
      lookupPlaylistRun (fetchOfPages 2000 [bigVids 2000]) 1 =
        some (.error .PlaylistTooLong, 1) := by
  refine ⟨distinctIdCount_bigVids 2000, rfl, by decide, ?_⟩
  have h := run_of_accum (bigAccum 2000 2000 1 (by decide) (by decide))
  rw [if_pos (by rw [mergePage_nil_bigVids]; decide)] at h
  exact h

/-- C3 (amended): for a playlist whose distinct item count equals the
declared count, is strictly below the ceiling, and whose items carry
no upstream error field, lookupPlaylist succeeds and returns exactly
the accumulated items with a present non-zero duration, mapped in
accumulator order. -/
theorem C3_success_below_limit (vc fuel : Nat)
    (pages : List (List RawItem))
    (hd : distinctIdCount pages = vc) (hlt : vc < PLAYLIST_ITEM_LIMIT)
    (herr : ∀ v ∈ pages.flatten, v.error = none)
    (hfuel : pages.length ≤ fuel) :
    ∃ acc n,
      playlistAccum (fetchOfPages vc pages) fuel = some (acc, n) ∧
        lookupPlaylistRun (fetchOfPages vc pages) fuel =
          some (.ok ((acc.filter durOk).map mediaOfItem), n) := by
  have hvc : ¬ (fetchOfPages vc pages 1).videoCount >
      PLAYLIST_ITEM_LIMIT := by
    simp only [fetchOfPages]
    omega
  obtain ⟨acc, n, hp⟩ := paginate_total_of_pages vc pages fuel 1
    (mergePage [] (fetchOfPages vc pages 1).videos) (by omega)
  have hinv := paginate_inv (P := fun w => w ∈ pages.flatten)
    (fetchOfPages vc pages) (fun i v hv => mem_fetchOfPages hv)
    fuel 1 (mergePage [] (fetchOfPages vc pages 1).videos) acc n hp
    (accKeys_nodup_mergePage _ (by simp [accKeys]))
    (fun w hw => by
      rcases mem_mergePage hw with h1 | h1
      · exact absurd h1 (List.not_mem_nil w)
      · exact mem_fetchOfPages h1)
    (fun i v h1 h2 hv => by
      have h3 : i = 1 := le_antisymm h2 h1
      subst h3
      exact videoId_mem_mergePage _ hv)
  have hsub : accKeys acc ⊆ pages.flatten.map (fun v => v.videoId) := by
    intro k hk
    rcases mem_accKeys.mp hk with ⟨w, hw, he⟩
    exact he ▸ List.mem_map_of_mem _ (hinv.2.2.1 w hw)
  have hlen : acc.length ≤ vc := by
    have e1 : acc.length = (accKeys acc).length :=
      (List.length_map _ _).symm
    have e2 : (accKeys acc).toFinset.card = (accKeys acc).length :=
      List.toFinset_card_of_nodup hinv.2.1
    have e3 : (accKeys acc).toFinset ⊆
        (pages.flatten.map (fun v => v.videoId)).toFinset := by
      intro x hx
      exact List.mem_toFinset.mpr (hsub (List.mem_toFinset.mp hx))
    have e4 := Finset.card_le_card e3
    rw [e2, List.card_toFinset] at e4
    unfold distinctIdCount at hd
    omega
  have hnl : ¬ acc.length ≥ PLAYLIST_ITEM_LIMIT := by omega
  have hacc : playlistAccum (fetchOfPages vc pages) fuel = some (acc, n) :=
    playlistAccum_intro hvc hp
  have hmap := mapToMedia_ok (acc.filter durOk)
    (fun v hv => herr v (hinv.2.2.1 v (List.mem_of_mem_filter hv)))
  refine ⟨acc, n, hacc, ?_⟩
  have hrun := run_of_accum hacc
  rw [if_neg hnl] at hrun
  rw [hrun, hmap]

/-- C3 witness: a two-page playlist of two distinct items with
declared count 2 resolves successfully to the filtered mapping of its
accumulator. -/
theorem C3_success_below_limit_wit :
    ∃ acc n,
      playlistAccum (fetchOfPages 2 smallPages) 2 = some (acc, n) ∧
        lookupPlaylistRun (fetchOfPages 2 smallPages) 2 =
          some (.ok ((acc.filter durOk).map mediaOfItem), n) :=
  C3_success_below_limit 2 2 smallPages (by decide) (by decide)
    (by decide) (by decide)

/-- C4: a page-1 response declaring more than MAX_ITEMS items makes
lookupPlaylist fail with PlaylistTooLong with page 1 as the only page
fetched, for every fuel. -/
theorem C4_too_long_first_page (fetch : Nat → Page) (fuel : Nat)
    (h : (fetch 1).videoCount > PLAYLIST_ITEM_LIMIT) :
    lookupPlaylistRun fetch fuel = some (.error .PlaylistTooLong, 1) := by
  unfold lookupPlaylistRun
  rw [if_pos h]

/-- C4 witness: a declared count of 5000 is rejected after fetching
only page 1. -/
theorem C4_too_long_first_page_wit :
    lookupPlaylistRun bigCountFetch 3 = some (.error .PlaylistTooLong, 1) :=
  C4_too_long_first_page bigCountFetch 3 (by decide)

/-- C5: when the pagination loop exits with an accumulator at or
above MAX_ITEMS, the run fails with PlaylistTooLong and no item
sequence is ever returned. -/
theorem C5_reject_wholesale (fetch : Nat → Page) (fuel : Nat)
    (acc : List RawItem) (n : Nat)
    (hacc : playlistAccum fetch fuel = some (acc, n))
    (hlen : PLAYLIST_ITEM_LIMIT ≤ acc.length) :
    lookupPlaylistRun fetch fuel = some (.error .PlaylistTooLong, n) ∧
      ∀ ms k, lookupPlaylistRun fetch fuel ≠ some (.ok ms, k) := by
  have h := run_of_accum hacc
  rw [if_pos hlen] at h
  refine ⟨h, ?_⟩
  intro ms k hc
  rw [h] at hc
  simp at hc

/-- C5 witness: the 2001-item upstream fails with PlaylistTooLong and
does not return the empty item sequence. -/
theorem C5_reject_wholesale_wit :
    lookupPlaylistRun (fetchOfPages 2000 [bigVids 2001]) 0 =
        some (.error .PlaylistTooLong, 1) ∧
      lookupPlaylistRun (fetchOfPages 2000 [bigVids 2001]) 0 ≠
        some (.ok [], 1) := by
  have h := C5_reject_wholesale (fetchOfPages 2000 [bigVids 2001]) 0
    (mergePage [] (bigVids 2001)) 1
    (bigAccum 2000 2001 0 (by decide) (by decide))
    (by rw [mergePage_nil_bigVids]; decide)
  exact ⟨h.1, h.2 [] 1⟩

/-- C6: in the final accumulator every item id fetched on any page
occurs exactly once, and an insertion under an already-present id
overwrites the stored item: the value found under the id after an
insertion is the newly inserted item. -/
theorem C6_dedup_by_id (fetch : Nat → Page) (fuel : Nat)
    (acc : List RawItem) (n : Nat)
    (hacc : playlistAccum fetch fuel = some (acc, n)) :
    (∀ i v, 1 ≤ i → i ≤ n → v ∈ (fetch i).videos →
      acc.countP (fun w => w.videoId == v.videoId) = 1) ∧
    (∀ (acc2 : List RawItem) (v : RawItem),
      (insertItem acc2 v).find? (fun w => w.videoId == v.videoId) =
        some v) := by
  rcases playlistAccum_elim hacc with ⟨hvc, hp⟩
  have hinv := paginate_inv (P := fun _ => True) fetch
    (fun _ _ _ => trivial)
    fuel 1 (mergePage [] (fetch 1).videos) acc n hp
    (accKeys_nodup_mergePage _ (by simp [accKeys]))
    (fun _ _ => trivial)
    (fun i v h1 h2 hv => by
      have h3 : i = 1 := le_antisymm h2 h1
      subst h3
      exact videoId_mem_mergePage _ hv)
  refine ⟨?_, fun acc2 v => find?_insertItem acc2 v⟩
  intro i v h1 h2 hv
  exact countP_key_eq_one hinv.2.1 (hinv.2.2.2 i v h1 h2 hv)

/-- C6 witness: pages 1 and 2 share the id of itemB; in the final
accumulator that id occurs exactly once (holding the page-2 version
of the item). -/
theorem C6_dedup_by_id_wit :
    [itemA, itemB2, itemC].countP
      (fun w => w.videoId == itemB.videoId) = 1 :=
  (C6_dedup_by_id dupFetch 2 [itemA, itemB2, itemC] 2 (by decide)).1
    1 itemB (by decide) (by decide) (by decide)

/-- C7, counterexample: a run that exits the loop on an empty page
with accumulator size below the ceiling and different from the
declared count can still fail — an accumulated item that carries an
upstream error field and a non-zero duration makes the final mapping
throw InvalidItem, so the claim that such runs always succeed is
false. -/
theorem C7_cex_error_item :
    (fetchOfPages 2 [[itemErr]] 2).videos = [] ∧
      playlistAccum (fetchOfPages 2 [[itemErr]]) 1 = some ([itemErr], 2) ∧
      ([itemErr] : List RawItem).length < PLAYLIST_ITEM_LIMIT ∧
      ([itemErr] : List RawItem).length ≠
        (fetchOfPages 2 [[itemErr]] 2).videoCount ∧
      lookupPlaylistRun (fetchOfPages 2 [[itemErr]]) 1 =
        some (.error (.InvalidItem "Video contains error: boom"), 2) := by
  refine ⟨rfl, by decide, by decide, by decide, by decide⟩

/-- C7 (amended): when some page is empty and reachable within the
fuel, the loop stops at or before that page; if additionally the
final accumulator is below the ceiling, differs from the declared
count, and no fetched item carries an upstream error field, the run
succeeds with the partial duration-filtered accumulator. -/
theorem C7_empty_page_success (fetch : Nat → Page) (m fuel : Nat)
    (hm1 : 1 ≤ m) (hme : (fetch m).videos = [])
    (hfuel : m ≤ fuel + 1)
    (hvc : ¬ (fetch 1).videoCount > PLAYLIST_ITEM_LIMIT)
    (herr : ∀ i v, v ∈ (fetch i).videos → v.error = none) :
    ∃ acc n, playlistAccum fetch fuel = some (acc, n) ∧ n ≤ m ∧
      (acc.length < PLAYLIST_ITEM_LIMIT →
        acc.length ≠ (fetch n).videoCount →
        lookupPlaylistRun fetch fuel =
          some (.ok ((acc.filter durOk).map mediaOfItem), n)) := by
  obtain ⟨acc, n, hp, hnm⟩ := paginate_total_of_empty fetch m hme fuel 1
    (mergePage [] (fetch 1).videos) hm1 (by omega)
  have hinv := paginate_inv (P := fun w => w.error = none) fetch
    (fun i v hv => herr i v hv)
    fuel 1 (mergePage [] (fetch 1).videos) acc n hp
    (accKeys_nodup_mergePage _ (by simp [accKeys]))
    (fun w hw => by
      rcases mem_mergePage hw with h1 | h1
      · exact absurd h1 (List.not_mem_nil w)
      · exact herr 1 w h1)
    (fun i v h1 h2 hv => by
      have h3 : i = 1 := le_antisymm h2 h1
      subst h3
      exact videoId_mem_mergePage _ hv)
  have hacc := playlistAccum_intro hvc hp
  refine ⟨acc, n, hacc, hnm, ?_⟩
  intro hlen _
  have hrun := run_of_accum hacc
  rw [if_neg (by omega)] at hrun
  rw [hrun, mapToMedia_ok (acc.filter durOk)
    (fun v hv => hinv.2.2.1 v (List.mem_of_mem_filter hv))]

/-- C7 witness: a one-page playlist declaring 5 items exits on the
empty page 2 and succeeds with its single-item partial result. -/
theorem C7_empty_page_success_wit :
    ∃ acc n,
      playlistAccum (fetchOfPages 5 [[itemA]]) 1 = some (acc, n) ∧
        n ≤ 2 ∧
        (acc.length < PLAYLIST_ITEM_LIMIT →
          acc.length ≠ (fetchOfPages 5 [[itemA]] n).videoCount →
          lookupPlaylistRun (fetchOfPages 5 [[itemA]]) 1 =
            some (.ok ((acc.filter durOk).map mediaOfItem), n)) :=
  C7_empty_page_success (fetchOfPages 5 [[itemA]]) 2 1 (by decide) rfl
    (by decide) (by decide)
    (fun i v hv => by
      have h2 := mem_fetchOfPages hv
      simp only [List.flatten_cons, List.flatten_nil, List.append_nil,
        List.mem_singleton] at h2
      rw [h2]
      rfl)

/-- C9: every successful run returns exactly the duration-filtered
accumulator mapped to descriptors in accumulator order; items with an
absent or zero duration stay in the accumulator but are excluded by
the filter. -/
theorem C9_success_is_filtered_accum (fetch : Nat → Page) (fuel : Nat)
    (ms : List Media) (n : Nat)
    (h : lookupPlaylistRun fetch fuel = some (.ok ms, n)) :
    ∃ acc, playlistAccum fetch fuel = some (acc, n) ∧
      ms = (acc.filter durOk).map mediaOfItem := by
  obtain ⟨acc, hacc, hmap⟩ := run_ok_elim h
  exact ⟨acc, hacc, mapToMedia_ok_elim hmap⟩

/-- C9 witness: a successful run over a playlist holding a
duration-less item returns the filtered mapping of its accumulator,
which drops that item. -/
theorem C9_success_is_filtered_accum_wit :
    ∃ acc, playlistAccum noDurFetch 1 = some (acc, 1) ∧
      [mediaOfItem itemA] = (acc.filter durOk).map mediaOfItem :=
  C9_success_is_filtered_accum noDurFetch 1 [mediaOfItem itemA] 1
    (by decide)

/-- C8: the transport status code is mapped to the error taxonomy:
429 to RateLimited with the configured instance, 404 to NotFound, 500
to Forbidden, any other non-200 to UpstreamError with the code, and
only a 200 response reaches body parsing. -/
theorem C8_status_taxonomy {A : Type} (origin : String)
    (parse : String → Option A) (res : HttpResponse) :
    (res.statusCode = 429 →
      ivRequest origin parse res = .error (.RateLimited origin)) ∧
    (res.statusCode = 404 →
      ivRequest origin parse res = .error .NotFound) ∧
    (res.statusCode = 500 →
      ivRequest origin parse res = .error .Forbidden) ∧
    (res.statusCode ≠ 429 → res.statusCode ≠ 404 → res.statusCode ≠ 500 →
      res.statusCode ≠ 200 →
      ivRequest origin parse res =
        .error (.UpstreamError res.statusCode)) ∧
    (res.statusCode = 200 →
      ivRequest origin parse res =
        match parse res.data with
        | some v => .ok v
        | none => .error .MalformedResponse) := by
  unfold ivRequest
  refine ⟨?_, ?_, ?_, ?_, ?_⟩
  · intro h
    rw [if_pos h]
  · intro h
    rw [if_neg (by omega), if_pos h]
  · intro h
    rw [if_neg (by omega), if_neg (by omega), if_pos h]
  · intro h1 h2 h3 h4
    rw [if_neg h1, if_neg h2, if_neg h3, if_pos h4]
  · intro h
    rw [if_neg (by omega), if_neg (by omega), if_neg (by omega),
      if_neg (by simp [h])]

/-- C8 witness: each status class at a concrete response. -/
theorem C8_status_taxonomy_wit :
    ivRequest "iv.example" (fun s => some s.length) ⟨429, ""⟩ =
        .error (.RateLimited "iv.example") ∧
      ivRequest "o" (fun s => some s.length) ⟨404, ""⟩ =
        .error .NotFound ∧
      ivRequest "o" (fun s => some s.length) ⟨500, ""⟩ =
        .error .Forbidden ∧
      ivRequest "o" (fun s => some s.length) ⟨503, ""⟩ =
        .error (.UpstreamError 503) ∧
      ivRequest "o" (fun s => some s.length) ⟨200, "ab"⟩ = .ok 2 := by
  refine ⟨(C8_status_taxonomy "iv.example" _ _).1 rfl,
    (C8_status_taxonomy "o" _ _).2.1 rfl,
    (C8_status_taxonomy "o" _ _).2.2.1 rfl,
    (C8_status_taxonomy "o" _ _).2.2.2.1 (by decide) (by decide)
      (by decide) (by decide), ?_⟩
  have h := (C8_status_taxonomy "o" (fun s => some s.length)
    ⟨200, "ab"⟩).2.2.2.2 rfl
  rw [h]
  decide

/-- C10: when the cache returns a descriptor for the id, lookup
returns that descriptor with no network request issued — even with
the instance unset — and attempts a best-effort write-back of the
same descriptor. -/
theorem C10_cache_hit_bypasses_network (inst : Option String) (c : Cache)
    (net : Except IvError Media) (id : String) (m : Media)
    (h : c.get id = .ok (some m)) :
    lookupRun inst (some c) net id = (.ok m, false, [m]) := by
  simp [lookupRun, lookupInternal, h]

/-- C10 witness: with no instance configured, a cache hit is returned
directly, no network request is made, and the write-back of the
cached descriptor is attempted. -/
theorem C10_cache_hit_bypasses_network_wit :
    lookupRun none (some cacheX) (.error .NotFound) "x" =
      (.ok mediaX, false, [mediaX]) :=
  C10_cache_hit_bypasses_network none cacheX (.error .NotFound) "x"
    mediaX rfl
